import Mathlib

/-
Verification of the live-preview decoration engine: a shallow embedding of
buildDecorations (src/editor/livePreview.js) and of the TableWidget row
parser (tableWidget.js), with theorems about the decoration set they
produce.
-/

namespace LP

/-- Characters of the document buffer; offsets are indices into this list. -/
abbrev Doc := List Char

/-- Character at an absolute offset. Out-of-range positions yield the null
character, which no pattern character equals, mirroring a JS index past the
end never comparing equal to a pattern character. -/
def chAt (doc : Doc) (i : Nat) : Char := doc.getD i (Char.ofNat 0)

/-- Model of state.doc.sliceString(a, b). -/
def slice (doc : Doc) (a b : Nat) : List Char := (doc.take b).drop a

/-- Model of JS String.prototype.trim. -/
def jsTrim (s : List Char) : List Char :=
  ((s.dropWhile Char.isWhitespace).reverse.dropWhile Char.isWhitespace).reverse

/-- The backtick character (code point 96). -/
def tick : Char := Char.ofNat 96

/-- One-based number of the line containing offset pos: the newlines before
pos, plus one. A newline offset belongs to the line it terminates, as in
CodeMirror lineAt. -/
def lineNumber (doc : Doc) (pos : Nat) : Nat := (doc.take pos).count '\n' + 1

/-- Start offset of the line containing pos. -/
def lineStart (doc : Doc) (pos : Nat) : Nat :=
  pos - ((doc.take pos).reverse.takeWhile (fun c => c != '\n')).length

/-- End offset (exclusive of the newline) of the line containing pos. -/
def lineStop (doc : Doc) (pos : Nat) : Nat :=
  pos + ((doc.drop pos).takeWhile (fun c => c != '\n')).length

/-- Text of the line containing pos. -/
def lineText (doc : Doc) (pos : Nat) : List Char :=
  (doc.take (lineStop doc pos)).drop (lineStart doc pos)

/-- Offsets of the newline characters of the document. -/
def newlinePositions (doc : Doc) : List Nat :=
  (List.range doc.length).filter (fun i => chAt doc i == '\n')

/-- Start offset of the one-based n-th line (state.doc.line(n).from). -/
def nthLineStart (doc : Doc) (n : Nat) : Nat :=
  if n ≤ 1 then 0 else ((newlinePositions doc).getD (n - 2) doc.length) + 1

/-- Text of the one-based n-th line (state.doc.line(n).text). -/
def nthLineText (doc : Doc) (n : Nat) : List Char :=
  (doc.drop (nthLineStart doc n)).takeWhile (fun c => c != '\n')

/-- A selection range, with anchor and head offsets. -/
structure SelRange where
  anchor : Nat
  head : Nat
deriving DecidableEq

/-- Lower end of the range (SelectionRange.from). -/
def SelRange.lo (r : SelRange) : Nat := min r.anchor r.head

/-- Upper end of the range (SelectionRange.to). -/
def SelRange.hi (r : SelRange) : Nat := max r.anchor r.head

/-- The selection state: a list of ranges. -/
structure Selection where
  ranges : List SelRange
deriving DecidableEq

/-- The editor mode flag passed to the plugin. -/
inductive Mode where
  | edit
  | read
deriving DecidableEq

/-- Model of cursorInRange: some selection range r has r.from ≤ t and
r.to ≥ f. -/
def cursorInRange (sel : Selection) (f t : Nat) : Bool :=
  sel.ranges.any (fun r => r.lo ≤ t && f ≤ r.hi)

/-- Model of cursorOnLine: some selection range head lies on a line between
the line of f and the line of t. -/
def cursorOnLine (doc : Doc) (sel : Selection) (f t : Nat) : Bool :=
  let lf := lineNumber doc f
  let lt := lineNumber doc t
  sel.ranges.any (fun r => lf ≤ lineNumber doc r.head && lineNumber doc r.head ≤ lt)

/-- The inline guard (editorMode !== 'read' && cursorInRange(...)). -/
def revealRange (mode : Mode) (sel : Selection) (f t : Nat) : Bool :=
  (mode != Mode.read) && cursorInRange sel f t

/-- The inline guard (editorMode !== 'read' && cursorOnLine(...)). -/
def revealLine (mode : Mode) (doc : Doc) (sel : Selection) (f t : Nat) : Bool :=
  (mode != Mode.read) && cursorOnLine doc sel f t

/-- Widget descriptors carried by replacing decorations. -/
inductive Widget where
  | math (latex : List Char) (display : Bool)
  | image (filename : List Char) (width : Option Nat)
  | hr
  | table (raw : List Char)
deriving DecidableEq

/-- Decoration variants: Decoration.replace({}) is hide, Decoration.mark is
mark, Decoration.line is line, Decoration.replace({widget}) is widget. -/
inductive Deco where
  | hide (dfrom dto : Nat)
  | mark (dfrom dto : Nat) (cls : String)
  | line (lineFrom : Nat) (cls : String)
  | widget (dfrom dto : Nat) (w : Widget)
deriving DecidableEq

/-- Start offset of a decoration, the sort key of Decoration.set. -/
def Deco.startPos : Deco → Nat
  | .hide a _ => a
  | .mark a _ _ => a
  | .line a _ => a
  | .widget a _ _ => a

/-- Whether a decoration consumes its range (hide or widget replace). -/
def Deco.isReplace : Deco → Bool
  | .hide _ _ => true
  | .widget _ _ _ => true
  | _ => false

/-- Whether a decoration is a plain hide. -/
def Deco.isHide : Deco → Bool
  | .hide _ _ => true
  | _ => false

/-- Whether a decoration is a hide covering offset p. -/
def Deco.hideCovers : Deco → Nat → Bool
  | .hide a b, p => a ≤ p && p < b
  | _, _ => false

/-- Whether two decorations are both range-consuming and their ranges
intersect. -/
def replaceOverlap (d e : Deco) : Bool :=
  match d, e with
  | .hide a b, .hide c k => a < k && c < b
  | .hide a b, .widget c k _ => a < k && c < b
  | .widget a b _, .hide c k => a < k && c < b
  | .widget a b _, .widget c k _ => a < k && c < b
  | _, _ => false

def clsItalic : String := "cm-live-italic"
def clsBold : String := "cm-live-bold"
def clsStrike : String := "cm-live-strikethrough"
def clsCode : String := "cm-live-code"
def clsCodeblock : String := "cm-live-codeblock"
def clsQuote : String := "cm-live-blockquote"
def clsLink : String := "cm-live-link"
def clsHighlight : String := "cm-live-highlight"

/-- Class string of the heading line decoration for a given level. -/
def headingClass (lvl : Nat) : String :=
  "cm-live-heading cm-live-heading-" ++ toString lvl

/-- Node kinds dispatched on by the visitor; other covers every name the
visitor does not handle (Document, Paragraph, marks, and so on). -/
inductive NodeKind where
  | atxHeading (level : Nat)
  | emphasisMark
  | emphasis
  | strongEmphasis
  | strikethrough
  | inlineCode
  | fencedCode
  | link
  | blockquote
  | horizontalRule
  | other
deriving DecidableEq

mutual
/-- A node of the structural parse tree. -/
inductive Tree where
  | node (kind : NodeKind) (nfrom nto : Nat) (children : Forest)
/-- A list of sibling nodes. -/
inductive Forest where
  | nil
  | cons (head : Tree) (tail : Forest)
end

/-- Match of the anchored link regex: bracketed text part, parenthesized url
part, covering the whole content; returns the text length. -/
def linkMatch (content : List Char) : Option Nat :=
  match content with
  | '[' :: rest =>
    let a := rest.takeWhile (fun c => c != ']')
    match rest.drop a.length with
    | ']' :: '(' :: rest2 =>
      let b := rest2.takeWhile (fun c => c != ')')
      match rest2.drop b.length with
      | [')'] => some a.length
      | _ => none
    | _ => none
  | _ => none

/-- Length of the blockquote line prefix match: a gt sign plus at most one
whitespace character. -/
def quotePrefixLen (lineT : List Char) : Option Nat :=
  match lineT with
  | '>' :: c :: _ => if c.isWhitespace then some 2 else some 1
  | ['>'] => some 1
  | _ => none

/-- One step of the syntax-tree visitor of buildDecorations: the decorations
emitted for a node, plus whether iteration descends into its children. -/
def enterNode (doc : Doc) (sel : Selection) (mode : Mode)
    (parent : Option (Nat × Nat)) (kind : NodeKind) (f t : Nat) :
    List Deco × Bool :=
  match kind with
  | .atxHeading lvl =>
    if lvl < 1 ∨ 6 < lvl then ([], true)
    else
      let lf := lineStart doc f
      let base := [Deco.line lf (headingClass lvl)]
      if revealLine mode doc sel f t then (base, true)
      else
        match (lineText doc f).findIdx? (fun c => c == ' ') with
        | some idx => (base ++ [Deco.hide lf (lf + idx + 1)], false)
        | none => (base, false)
  | .emphasisMark =>
    match parent with
    | none => ([], true)
    | some (pf, pt) =>
      if revealRange mode sel pf pt then ([], true)
      else ([Deco.hide f t], false)
  | .emphasis => ([Deco.mark f t clsItalic], true)
  | .strongEmphasis => ([Deco.mark f t clsBold], true)
  | .strikethrough =>
    if revealRange mode sel f t then ([], true)
    else ([Deco.hide f (f + 2), Deco.hide (t - 2) t,
           Deco.mark (f + 2) (t - 2) clsStrike], false)
  | .inlineCode =>
    if revealRange mode sel f t then ([], true)
    else
      let content := slice doc f t
      let k := (content.takeWhile (fun c => c == tick)).length
      let ticks := if k = 0 then 1 else k
      ([Deco.hide f (f + ticks), Deco.hide (t - ticks) t,
        Deco.mark (f + ticks) (t - ticks) clsCode], false)
  | .fencedCode =>
    if revealLine mode doc sel f t then ([], true)
    else
      let sl := lineNumber doc f
      let el := lineNumber doc t
      let openH := if (jsTrim (lineText doc f)).take 3 = [tick, tick, tick] then
          [Deco.hide (lineStart doc f) (lineStop doc f)] else []
      let closeH := if (jsTrim (lineText doc t)).take 3 = [tick, tick, tick] then
          [Deco.hide (lineStart doc t) (lineStop doc t)] else []
      let inner := (List.range' sl (el - sl + 1)).filterMap (fun i =>
        if sl < i ∧ i < el then some (Deco.line (nthLineStart doc i) clsCodeblock)
        else none)
      (openH ++ closeH ++ inner, false)
  | .link =>
    if revealRange mode sel f t then ([], true)
    else
      match linkMatch (slice doc f t) with
      | none => ([], true)
      | some textLen =>
        ([Deco.hide f (f + 1), Deco.hide (f + 1 + textLen) t,
          Deco.mark (f + 1) (f + 1 + textLen) clsLink], false)
  | .blockquote =>
    if revealLine mode doc sel f t then ([], true)
    else
      let sl := lineNumber doc f
      let el := lineNumber doc t
      let ds := ((List.range' sl (el - sl + 1)).map (fun i =>
        let ls := nthLineStart doc i
        (match quotePrefixLen (nthLineText doc i) with
         | some plen => [Deco.hide ls (ls + plen)]
         | none => []) ++ [Deco.line ls clsQuote])).flatten
      (ds, false)
  | .horizontalRule =>
    if revealLine mode doc sel f t then ([], true)
    else ([Deco.widget f t Widget.hr], false)
  | .other => ([], true)

mutual
/-- Depth-first visitor pass of buildDecorations over the parse tree. -/
def iterTree (doc : Doc) (sel : Selection) (mode : Mode)
    (parent : Option (Nat × Nat)) : Tree → List Deco
  | .node k f t cs =>
    let r := enterNode doc sel mode parent k f t
    r.1 ++ (if r.2 then iterChildren doc sel mode (some (f, t)) cs else [])

/-- Visitor pass over a list of sibling nodes. -/
def iterChildren (doc : Doc) (sel : Selection) (mode : Mode)
    (parent : Option (Nat × Nat)) : Forest → List Deco
  | .nil => []
  | .cons c cs =>
    iterTree doc sel mode parent c ++ iterChildren doc sel mode parent cs
end

/-- Generic model of a global-regex exec loop: from position i, probe each
position for a match (tryAt yields the end offset and payload of a match
anchored at the probed position); a found match is recorded and the scan
resumes at its end. -/
def scanLoop (len : Nat) (tryAt : Nat → Option (Nat × α)) :
    Nat → Nat → List (Nat × Nat × α)
  | 0, _ => []
  | fuel + 1, i =>
    if i < len then
      match tryAt i with
      | some (e, a) => (i, e, a) :: scanLoop len tryAt fuel (max e (i + 1))
      | none => scanLoop len tryAt fuel (i + 1)
    else []

/-- First j at or after the start position with ch at both j and j+1. -/
def findPair (doc : Doc) (ch : Char) : Nat → Nat → Option Nat
  | 0, _ => none
  | fuel + 1, j =>
    if j < doc.length then
      if chAt doc j = ch ∧ chAt doc (j + 1) = ch then some j
      else findPair doc ch fuel (j + 1)
    else none

/-- Anchored match of the block math pattern at i: two dollars, a shortest
nonempty inner group, two dollars. -/
def tryBlockAt (doc : Doc) (i : Nat) : Option (Nat × List Char) :=
  if chAt doc i = '$' ∧ chAt doc (i + 1) = '$' then
    match findPair doc '$' (doc.length + 1) (i + 3) with
    | some j => some (j + 2, slice doc (i + 2) j)
    | none => none
  else none

/-- All block math matches of the document, in scan order. -/
def scanBlockMath (doc : Doc) : List (Nat × Nat × List Char) :=
  scanLoop doc.length (tryBlockAt doc) (doc.length + 1) 0

/-- Closing-dollar search of an inline math candidate, emulating the lazy
inner group: the first position holding a dollar neither preceded nor
followed by a dollar; fails on a newline. -/
def findInlineClose (doc : Doc) : Nat → Nat → Option Nat
  | 0, _ => none
  | fuel + 1, c =>
    if c < doc.length then
      if chAt doc c = '\n' then none
      else if chAt doc c = '$' ∧ chAt doc (c - 1) ≠ '$' ∧ chAt doc (c + 1) ≠ '$' then
        some c
      else findInlineClose doc fuel (c + 1)
    else none

/-- Anchored match of the inline math pattern at i. -/
def tryInlineAt (doc : Doc) (i : Nat) : Option (Nat × List Char) :=
  if chAt doc i = '$' ∧ (i = 0 ∨ chAt doc (i - 1) ≠ '$')
      ∧ chAt doc (i + 1) ≠ '$' ∧ chAt doc (i + 1) ≠ '\n' then
    match findInlineClose doc (doc.length + 1) (i + 2) with
    | some c => some (c + 1, slice doc (i + 1) c)
    | none => none
  else none

/-- All inline math candidate matches of the document, in scan order. -/
def scanInline (doc : Doc) : List (Nat × Nat × List Char) :=
  scanLoop doc.length (tryInlineAt doc) (doc.length + 1) 0

/-- Closing search of a highlight candidate: the first position holding a
double equals sign neither preceded nor followed by an equals sign; fails on
a newline. -/
def findHighlightClose (doc : Doc) : Nat → Nat → Option Nat
  | 0, _ => none
  | fuel + 1, c =>
    if c < doc.length then
      if chAt doc c = '\n' then none
      else if chAt doc c = '=' ∧ chAt doc (c + 1) = '=' ∧ chAt doc (c - 1) ≠ '='
          ∧ chAt doc (c + 2) ≠ '=' then some c
      else findHighlightClose doc fuel (c + 1)
    else none

/-- Anchored match of the highlight pattern at i. -/
def tryHighlightAt (doc : Doc) (i : Nat) : Option (Nat × List Char) :=
  if chAt doc i = '=' ∧ chAt doc (i + 1) = '=' ∧ (i = 0 ∨ chAt doc (i - 1) ≠ '=')
      ∧ chAt doc (i + 2) ≠ '=' ∧ chAt doc (i + 2) ≠ '\n' then
    match findHighlightClose doc (doc.length + 1) (i + 3) with
    | some c => some (c + 2, slice doc (i + 2) c)
    | none => none
  else none

/-- All highlight matches of the document, in scan order. -/
def scanHighlight (doc : Doc) : List (Nat × Nat × List Char) :=
  scanLoop doc.length (tryHighlightAt doc) (doc.length + 1) 0

/-- Whitespace run length at p. -/
def wsRun (doc : Doc) (p : Nat) : Nat :=
  ((doc.drop p).takeWhile Char.isWhitespace).length

/-- Digit run length at p. -/
def digitRun (doc : Doc) (p : Nat) : Nat :=
  ((doc.drop p).takeWhile Char.isDigit).length

/-- Numeric value of a digit string (parseInt on a digit run). -/
def natOfDigits (s : List Char) : Nat :=
  s.foldl (fun acc c => 10 * acc + (c.toNat - 48)) 0

/-- Backtracking over the greedy filename group of the image pattern, longest
first. Returns filename length, match end, and the optional width. -/
def tryImageTail (doc : Doc) (j : Nat) : Nat → Option (Nat × Nat × Option Nat)
  | 0 => none
  | l + 1 =>
    let k := j + (l + 1)
    let presentEnd :=
      let k1 := k + wsRun doc k
      if chAt doc k1 = '|' then
        let k3 := k1 + 1 + wsRun doc (k1 + 1)
        let d := digitRun doc k3
        if 0 < d ∧ chAt doc (k3 + d) = ']' ∧ chAt doc (k3 + d + 1) = ']' then
          some (l + 1, k3 + d + 2, some (natOfDigits (slice doc k3 (k3 + d))))
        else none
      else none
    match presentEnd with
    | some r => some r
    | none =>
      if chAt doc k = ']' ∧ chAt doc (k + 1) = ']' then some (l + 1, k + 2, none)
      else tryImageTail doc j l

/-- Anchored match of the image embed pattern at i. -/
def tryImageAt (doc : Doc) (i : Nat) : Option (Nat × List Char × Option Nat) :=
  if chAt doc i = '!' ∧ chAt doc (i + 1) = '[' ∧ chAt doc (i + 2) = '[' then
    let j := i + 3
    let m := ((doc.drop j).takeWhile (fun c => c != ']' && c != '|')).length
    match tryImageTail doc j m with
    | some (l, e, w) => some (e, (slice doc j (j + l), w))
    | none => none
  else none

/-- All image embed matches of the document, in scan order. -/
def scanImage (doc : Doc) : List (Nat × Nat × List Char × Option Nat) :=
  scanLoop doc.length (tryImageAt doc) (doc.length + 1) 0

/-- Space-or-tab run length at p. -/
def tabSpRun (doc : Doc) (p : Nat) : Nat :=
  ((doc.drop p).takeWhile (fun c => c == ' ' || c == '\t')).length

/-- Non-newline run length at p. -/
def rowRun (doc : Doc) (p : Nat) : Nat :=
  ((doc.drop p).takeWhile (fun c => c != '\n')).length

/-- Characters of the separator-row character class. -/
def sepClassChar (c : Char) : Bool :=
  c.isWhitespace || c == ':' || c == '|' || c == '-'

/-- Separator-class run length at p. -/
def sepClassRun (doc : Doc) (p : Nat) : Nat :=
  ((doc.drop p).takeWhile sepClassChar).length

/-- Candidate closing bar positions scanned downward from p to lowBound (the
greedy inner part backtracks longest first): a candidate succeeds when a bar
is followed by spaces or tabs and then a newline; the result is the offset
just after that newline. -/
def findBarNl (doc : Doc) (lowBound : Nat) : Nat → Nat → Option Nat
  | 0, _ => none
  | fuel + 1, p =>
    if p < lowBound then none
    else if chAt doc p = '|' ∧ chAt doc (p + 1 + tabSpRun doc (p + 1)) = '\n' then
      some (p + 1 + tabSpRun doc (p + 1) + 1)
    else findBarNl doc lowBound fuel (p - 1)

/-- Match of the table header line at a: a bar, a nonempty row, a closing
bar, spaces or tabs, a newline. -/
def tryTableLine1 (doc : Doc) (a : Nat) : Option Nat :=
  if chAt doc a = '|' then
    let r := rowRun doc (a + 1)
    if r = 0 then none else findBarNl doc (a + 2) (r + 1) (a + r)
  else none

/-- Closing bar of one body line, greedily the highest bar position in the
row; the trailing newline is optional. -/
def findBodyBar (doc : Doc) (lowBound : Nat) : Nat → Nat → Option Nat
  | 0, _ => none
  | fuel + 1, p =>
    if p < lowBound then none
    else if chAt doc p = '|' then
      let q := p + 1 + tabSpRun doc (p + 1)
      some (if chAt doc q = '\n' then q + 1 else q)
    else findBodyBar doc lowBound fuel (p - 1)

/-- Match of one table body line at p. -/
def tryBodyLine (doc : Doc) (p : Nat) : Option Nat :=
  if chAt doc p = '|' then
    let r := rowRun doc (p + 1)
    if r = 0 then none else findBodyBar doc (p + 2) (r + 1) (p + r)
  else none

/-- Repeated body lines: a further line is attempted only when the previous
one consumed its newline (the next iteration needs a line start). -/
def bodyLoop (doc : Doc) : Nat → Nat → Nat
  | 0, p => p
  | fuel + 1, p =>
    match tryBodyLine doc p with
    | none => p
    | some e => if chAt doc (e - 1) = '\n' then bodyLoop doc fuel e else e

/-- Candidate separator-row splits tried longest first; each candidate needs
a closing bar, spaces or tabs, a newline, and at least one body line after
it. -/
def tryTableRest (doc : Doc) (lowBound : Nat) : Nat → Nat → Option Nat
  | 0, _ => none
  | fuel + 1, p =>
    if p < lowBound then none
    else if chAt doc p = '|' ∧ chAt doc (p + 1 + tabSpRun doc (p + 1)) = '\n' then
      let c0 := p + 1 + tabSpRun doc (p + 1) + 1
      match tryBodyLine doc c0 with
      | some e1 =>
        some (if chAt doc (e1 - 1) = '\n' then bodyLoop doc (doc.length + 1) e1 else e1)
      | none => tryTableRest doc lowBound fuel (p - 1)
    else tryTableRest doc lowBound fuel (p - 1)

/-- Anchored match of the table pattern at i: i must be a line start, then a
header line, a separator line, and one or more body lines. -/
def tryTableAt (doc : Doc) (i : Nat) : Option (Nat × Unit) :=
  if i = 0 ∨ chAt doc (i - 1) = '\n' then
    match tryTableLine1 doc i with
    | some b =>
      if chAt doc b = '|' then
        let s := sepClassRun doc (b + 1)
        if s = 0 then none
        else
          match tryTableRest doc (b + 2) (s + 1) (b + s) with
          | some e => some (e, ())
          | none => none
      else none
    | none => none
  else none

/-- All table matches of the document, in scan order. -/
def scanTable (doc : Doc) : List (Nat × Nat × Unit) :=
  scanLoop doc.length (tryTableAt doc) (doc.length + 1) 0

/-- Decorations of the block math scan. -/
def blockMathDecos (doc : Doc) (sel : Selection) (mode : Mode) : List Deco :=
  (scanBlockMath doc).filterMap (fun m =>
    if revealRange mode sel m.1 m.2.1 then none
    else some (Deco.widget m.1 m.2.1 (Widget.math (jsTrim m.2.2) true)))

/-- Containment test of an inline candidate span against the block math
matches of the document. -/
def containedInBlockMath (doc : Doc) (mfrom mto : Nat) : Bool :=
  (scanBlockMath doc).any (fun b => b.1 ≤ mfrom && mto ≤ b.2.1)

/-- Decorations of the inline math scan. -/
def inlineMathDecos (doc : Doc) (sel : Selection) (mode : Mode) : List Deco :=
  (scanInline doc).filterMap (fun m =>
    if containedInBlockMath doc m.1 m.2.1 then none
    else if revealRange mode sel m.1 m.2.1 then none
    else some (Deco.widget m.1 m.2.1 (Widget.math m.2.2 false)))

/-- Decorations of the highlight scan. -/
def highlightDecos (doc : Doc) (sel : Selection) (mode : Mode) : List Deco :=
  ((scanHighlight doc).map (fun m =>
    if revealRange mode sel m.1 m.2.1 then []
    else [Deco.hide m.1 (m.1 + 2), Deco.hide (m.2.1 - 2) m.2.1,
          Deco.mark (m.1 + 2) (m.2.1 - 2) clsHighlight])).flatten

/-- Decorations of the image embed scan. -/
def imageDecos (doc : Doc) (sel : Selection) (mode : Mode) : List Deco :=
  (scanImage doc).filterMap (fun m =>
    if revealRange mode sel m.1 m.2.1 then none
    else some (Deco.widget m.1 m.2.1 (Widget.image (jsTrim m.2.2.1) m.2.2.2)))

/-- Decorations of the table scan; the trailing newline is excluded from the
replaced range. -/
def tableDecos (doc : Doc) (sel : Selection) (mode : Mode) : List Deco :=
  (scanTable doc).filterMap (fun m =>
    let trimmedTo := if chAt doc (m.2.1 - 1) = '\n' then m.2.1 - 1 else m.2.1
    if revealRange mode sel m.1 trimmedTo then none
    else some (Deco.widget m.1 trimmedTo (Widget.table (jsTrim (slice doc m.1 m.2.1)))))

/-- The sort order of Decoration.set: compare start offsets. -/
def decoLE (a b : Deco) : Prop := a.startPos ≤ b.startPos

instance : DecidableRel decoLE := fun _ _ => Nat.decLe _ _

instance : IsTotal Deco decoLE := ⟨fun _ _ => Nat.le_total _ _⟩

instance : IsTrans Deco decoLE := ⟨fun _ _ _ => Nat.le_trans⟩

/-- Model of Decoration.set with sort=true: order decorations by start
offset. -/
def sortDecos (l : List Deco) : List Deco := l.insertionSort decoLE

/-- The full recompute: the tree visitor pass, the five pattern scans, then
the sorted decoration set. -/
def buildDecorations (doc : Doc) (tree : Tree) (sel : Selection) (mode : Mode) :
    List Deco :=
  sortDecos (iterTree doc sel mode none tree
    ++ blockMathDecos doc sel mode
    ++ inlineMathDecos doc sel mode
    ++ highlightDecos doc sel mode
    ++ imageDecos doc sel mode
    ++ tableDecos doc sel mode)

/-- Model of TableWidget parseRow: split on bars, drop a blank leading and
trailing cell, trim every cell. -/
def parseRow (lineT : List Char) : List (List Char) :=
  let cells0 := lineT.splitOn '|'
  let cells1 := match cells0 with
    | c :: rest => if jsTrim c = [] then rest else cells0
    | [] => cells0
  let cells2 := match cells1.getLast? with
    | some lastC => if jsTrim lastC = [] then cells1.dropLast else cells1
    | none => cells1
  cells2.map jsTrim

/-- Cell text matching the separator-cell pattern: an optional colon, one or
more dashes, an optional colon. -/
def sepCell (c : List Char) : Bool :=
  let c1 := match c with
    | ':' :: rest => rest
    | _ => c
  let c2 := match c1.getLast? with
    | some ':' => c1.dropLast
    | _ => c1
  !c2.isEmpty && c2.all (fun ch => ch == '-')

/-- Model of TableWidget isSeparator. -/
def isSeparator (lineT : List Char) : Bool :=
  let cells := parseRow lineT
  !cells.isEmpty && cells.all sepCell

/-- Row partition of the TableWidget.toDOM loop: thead rows and tbody rows,
with the separatorFound and headerParsed flags threaded as in the source. -/
def tablePartition : List (List Char) → Bool → Bool →
    List (List (List Char)) × List (List (List Char))
  | [], _, _ => ([], [])
  | l :: ls, sepFound, headerParsed =>
    if !sepFound && isSeparator l then tablePartition ls true headerParsed
    else
      let cells := parseRow l
      if headerParsed then
        let r := tablePartition ls sepFound headerParsed
        (r.1, cells :: r.2)
      else
        let r := tablePartition ls sepFound sepFound
        (cells :: r.1, r.2)

/-- Rendering outcome of the table widget. -/
inductive TableRender where
  | raw (text : List Char)
  | table (header body : List (List (List Char)))
deriving DecidableEq

/-- Model of TableWidget.toDOM: blank lines dropped; fewer than two remaining
lines renders the raw text; otherwise the rows are partitioned into header
and body. -/
def tableWidgetDom (rawTable : List Char) : TableRender :=
  let lines := (rawTable.splitOn '\n').filter (fun l => !(jsTrim l).isEmpty)
  if lines.length < 2 then TableRender.raw rawTable
  else
    let r := tablePartition lines false false
    TableRender.table r.1 r.2

/-- A single-cursor selection at position p. -/
def cursorAt (p : Nat) : Selection := Selection.mk [SelRange.mk p p]

/-- Forest of emphasis marker children built from a list of marker spans. -/
def marksForest : List (Nat × Nat) → Forest
  | [] => Forest.nil
  | mk :: ms =>
    Forest.cons (Tree.node NodeKind.emphasisMark mk.1 mk.2 Forest.nil) (marksForest ms)

/-- Document of the emphasis scenario. -/
def scenarioEmphDoc : Doc := "Hello **bold** text".toList

/-- Parse tree of the emphasis scenario: a strong-emphasis span over the
asterisk-delimited word with its two marker tokens. -/
def scenarioEmphTree : Tree :=
  Tree.node NodeKind.other 0 19 (Forest.cons
    (Tree.node NodeKind.strongEmphasis 6 14 (Forest.cons
      (Tree.node NodeKind.emphasisMark 6 8 Forest.nil)
      (Forest.cons (Tree.node NodeKind.emphasisMark 12 14 Forest.nil) Forest.nil)))
    Forest.nil)

/-! Helper lemmas about sorting. -/

theorem sortDecos_sorted (l : List Deco) : List.Sorted decoLE (sortDecos l) :=
  List.sorted_insertionSort decoLE l

theorem sortDecos_perm (l : List Deco) : List.Perm (sortDecos l) l :=
  List.perm_insertionSort decoLE l

theorem mem_sortDecos {d : Deco} {l : List Deco} : d ∈ sortDecos l ↔ d ∈ l :=
  (sortDecos_perm l).mem_iff

/-! Helper lemmas about the reveal guards in read mode. -/

theorem revealRange_read (sel : Selection) (f t : Nat) :
    revealRange Mode.read sel f t = false := by
  simp [revealRange]

theorem revealLine_read (doc : Doc) (sel : Selection) (f t : Nat) :
    revealLine Mode.read doc sel f t = false := by
  simp [revealLine]

theorem enterNode_read (doc : Doc) (sel sel' : Selection)
    (p : Option (Nat × Nat)) (k : NodeKind) (f t : Nat) :
    enterNode doc sel Mode.read p k f t = enterNode doc sel' Mode.read p k f t := by
  cases k <;> cases p <;>
    simp [enterNode, revealRange_read, revealLine_read]

mutual
theorem iterTree_read (doc : Doc) (sel sel' : Selection) :
    ∀ (p : Option (Nat × Nat)) (t : Tree),
      iterTree doc sel Mode.read p t = iterTree doc sel' Mode.read p t
  | p, .node k f t cs => by
    simp only [iterTree]
    rw [enterNode_read doc sel sel' p k f t,
      iterChildren_read doc sel sel' (some (f, t)) cs]

theorem iterChildren_read (doc : Doc) (sel sel' : Selection) :
    ∀ (p : Option (Nat × Nat)) (cs : Forest),
      iterChildren doc sel Mode.read p cs = iterChildren doc sel' Mode.read p cs
  | _, .nil => by simp only [iterChildren]
  | p, .cons c cs => by
    simp only [iterChildren]
    rw [iterTree_read doc sel sel' p c, iterChildren_read doc sel sel' p cs]
end

theorem blockMathDecos_read (doc : Doc) (sel sel' : Selection) :
    blockMathDecos doc sel Mode.read = blockMathDecos doc sel' Mode.read := by
  simp [blockMathDecos, revealRange_read]

theorem inlineMathDecos_read (doc : Doc) (sel sel' : Selection) :
    inlineMathDecos doc sel Mode.read = inlineMathDecos doc sel' Mode.read := by
  simp [inlineMathDecos, revealRange_read]

theorem highlightDecos_read (doc : Doc) (sel sel' : Selection) :
    highlightDecos doc sel Mode.read = highlightDecos doc sel' Mode.read := by
  simp [highlightDecos, revealRange_read]

theorem imageDecos_read (doc : Doc) (sel sel' : Selection) :
    imageDecos doc sel Mode.read = imageDecos doc sel' Mode.read := by
  simp [imageDecos, revealRange_read]

theorem tableDecos_read (doc : Doc) (sel sel' : Selection) :
    tableDecos doc sel Mode.read = tableDecos doc sel' Mode.read := by
  simp [tableDecos, revealRange_read]

/-! Characterizations of the cursor predicates. -/

theorem cursorInRange_iff (sel : Selection) (f t : Nat) :
    cursorInRange sel f t = true ↔ ∃ r ∈ sel.ranges, r.lo ≤ t ∧ f ≤ r.hi := by
  simp [cursorInRange]

theorem cursorOnLine_iff (doc : Doc) (sel : Selection) (f t : Nat) :
    cursorOnLine doc sel f t = true ↔
      ∃ r ∈ sel.ranges, lineNumber doc f ≤ lineNumber doc r.head ∧
        lineNumber doc r.head ≤ lineNumber doc t := by
  simp [cursorOnLine]

/-! Progress of the pattern scan loops. -/

/-- Strict progress of a scan result list: every recorded match is nonempty,
and consecutive matches are disjoint in order (each starts at or after the
previous end). -/
def ScanProgress {α : Type} (l : List (Nat × Nat × α)) : Prop :=
  (∀ m ∈ l, m.1 < m.2.1) ∧ List.Chain' (fun m1 m2 => m1.2.1 ≤ m2.1) l

theorem scanLoop_progress {α : Type} (len : Nat) (tryAt : Nat → Option (Nat × α))
    (hpos : ∀ i e a, tryAt i = some (e, a) → i < e) :
    ∀ fuel i : Nat,
      (∀ m ∈ scanLoop len tryAt fuel i, i ≤ m.1 ∧ m.1 < m.2.1) ∧
      List.Chain' (fun m1 m2 => m1.2.1 ≤ m2.1) (scanLoop len tryAt fuel i) := by
  intro fuel
  induction fuel with
  | zero => intro i; simp [scanLoop]
  | succ fuel ih =>
    intro i
    by_cases hlen : i < len
    · rcases htry : tryAt i with _ | ⟨e, a⟩
      · have hr := ih (i + 1)
        rw [scanLoop, if_pos hlen, htry]
        exact ⟨fun m hm => ⟨Nat.le_of_succ_le (hr.1 m hm).1, (hr.1 m hm).2⟩, hr.2⟩
      · have hlt := hpos i e a htry
        have hr := ih (max e (i + 1))
        rw [scanLoop, if_pos hlen, htry]
        constructor
        · intro m hm
          rcases List.mem_cons.mp hm with rfl | hm
          · exact ⟨Nat.le_refl _, hlt⟩
          · refine ⟨?_, (hr.1 m hm).2⟩
            have : i ≤ max e (i + 1) :=
              Nat.le_trans (Nat.le_succ i) (Nat.le_max_right _ _)
            exact Nat.le_trans this (hr.1 m hm).1
        · rw [List.chain'_cons']
          refine ⟨?_, hr.2⟩
          intro y hy
          have := hr.1 y (List.mem_of_mem_head? hy)
          exact Nat.le_trans (Nat.le_max_left _ _) this.1
    · rw [scanLoop, if_neg hlen]
      simp

theorem chain_le_all {α : Type} :
    ∀ (ms : List (Nat × Nat × α)) (b : Nat), (∀ m ∈ ms, m.1 < m.2.1) →
      List.Chain' (fun m1 m2 => m1.2.1 ≤ m2.1) ms →
      (∀ y ∈ ms.head?, b ≤ y.1) → ∀ y ∈ ms, b ≤ y.1 := by
  intro ms
  induction ms with
  | nil => simp
  | cons m ms ih =>
    intro b hpos hch hhead y hy
    rcases List.mem_cons.mp hy with rfl | hy
    · exact hhead y rfl
    · rw [List.chain'_cons'] at hch
      have hb : b ≤ m.1 := hhead m rfl
      have h2 : ∀ y ∈ ms.head?, b ≤ y.1 := fun y hy =>
        Nat.le_trans (Nat.le_trans hb (Nat.le_of_lt (hpos m (List.mem_cons_self m ms))))
          (hch.1 y hy)
      exact ih b (fun x hx => hpos x (List.mem_cons_of_mem m hx)) hch.2 h2 y hy

theorem progress_pairwise {α : Type} :
    ∀ {l : List (Nat × Nat × α)}, ScanProgress l →
      List.Pairwise (fun m1 m2 => m1.1 < m2.1) l := by
  intro l
  induction l with
  | nil => intro _; exact List.Pairwise.nil
  | cons m ms ih =>
    intro h
    have hch := h.2
    rw [List.chain'_cons'] at hch
    refine List.Pairwise.cons ?_
      (ih ⟨fun x hx => h.1 x (List.mem_cons_of_mem m hx), hch.2⟩)
    intro y hy
    have hall : ∀ y ∈ ms, m.2.1 ≤ y.1 :=
      chain_le_all ms m.2.1 (fun x hx => h.1 x (List.mem_cons_of_mem m hx)) hch.2 hch.1
    exact Nat.lt_of_lt_of_le (h.1 m (List.mem_cons_self m ms)) (hall y hy)

theorem findPair_ge (doc : Doc) (ch : Char) :
    ∀ fuel j r : Nat, findPair doc ch fuel j = some r → j ≤ r := by
  intro fuel
  induction fuel with
  | zero => intro j r h; simp [findPair] at h
  | succ fuel ih =>
    intro j r h
    rw [findPair] at h
    split at h
    · split at h
      · injection h with h; omega
      · exact Nat.le_of_succ_le (ih (j + 1) r h)
    · exact Option.noConfusion h

theorem tryBlockAt_lt (doc : Doc) :
    ∀ i e : Nat, ∀ a : List Char, tryBlockAt doc i = some (e, a) → i < e := by
  intro i e a h
  rw [tryBlockAt] at h
  split at h
  · split at h
    next j heq =>
      injection h with h
      cases h
      have := findPair_ge doc '$' (doc.length + 1) (i + 3) j heq
      omega
    next => exact Option.noConfusion h
  · exact Option.noConfusion h

theorem findInlineClose_ge (doc : Doc) :
    ∀ fuel c r : Nat, findInlineClose doc fuel c = some r → c ≤ r := by
  intro fuel
  induction fuel with
  | zero => intro c r h; simp [findInlineClose] at h
  | succ fuel ih =>
    intro c r h
    rw [findInlineClose] at h
    split at h
    · split at h
      · exact Option.noConfusion h
      · split at h
        · injection h with h; omega
        · exact Nat.le_of_succ_le (ih (c + 1) r h)
    · exact Option.noConfusion h

theorem tryInlineAt_lt (doc : Doc) :
    ∀ i e : Nat, ∀ a : List Char, tryInlineAt doc i = some (e, a) → i < e := by
  intro i e a h
  rw [tryInlineAt] at h
  split at h
  · split at h
    next c heq =>
      injection h with h
      cases h
      have := findInlineClose_ge doc (doc.length + 1) (i + 2) c heq
      omega
    next => exact Option.noConfusion h
  · exact Option.noConfusion h

theorem findHighlightClose_ge (doc : Doc) :
    ∀ fuel c r : Nat, findHighlightClose doc fuel c = some r → c ≤ r := by
  intro fuel
  induction fuel with
  | zero => intro c r h; simp [findHighlightClose] at h
  | succ fuel ih =>
    intro c r h
    rw [findHighlightClose] at h
    split at h
    · split at h
      · exact Option.noConfusion h
      · split at h
        · injection h with h; omega
        · exact Nat.le_of_succ_le (ih (c + 1) r h)
    · exact Option.noConfusion h

theorem tryHighlightAt_lt (doc : Doc) :
    ∀ i e : Nat, ∀ a : List Char, tryHighlightAt doc i = some (e, a) → i < e := by
  intro i e a h
  rw [tryHighlightAt] at h
  split at h
  · split at h
    next c heq =>
      injection h with h
      cases h
      have := findHighlightClose_ge doc (doc.length + 1) (i + 3) c heq
      omega
    next => exact Option.noConfusion h
  · exact Option.noConfusion h

theorem tryImageTail_gt (doc : Doc) (j : Nat) :
    ∀ n l e : Nat, ∀ w : Option Nat, tryImageTail doc j n = some (l, e, w) → j < e := by
  intro n
  induction n with
  | zero => intro l e w h; simp [tryImageTail] at h
  | succ n ih =>
    intro l e w h
    simp only [tryImageTail] at h
    split at h
    next r heq =>
      injection h with h
      subst h
      split at heq
      · split at heq
        · injection heq with heq
          cases heq
          omega
        · exact Option.noConfusion heq
      · exact Option.noConfusion heq
    next heq =>
      split at h
      · injection h with h
        cases h
        omega
      · exact ih l e w h

theorem tryImageAt_lt (doc : Doc) :
    ∀ i e : Nat, ∀ a : List Char × Option Nat, tryImageAt doc i = some (e, a) → i < e := by
  intro i e a h
  simp only [tryImageAt] at h
  split at h
  · split at h
    · rename_i l e1 w heq
      simp only [Option.some.injEq, Prod.mk.injEq] at h
      have := tryImageTail_gt doc (i + 3) _ l e1 w heq
      omega
    · exact Option.noConfusion h
  · exact Option.noConfusion h

theorem findBarNl_ge (doc : Doc) (lb : Nat) :
    ∀ fuel p r : Nat, findBarNl doc lb fuel p = some r → lb + 2 ≤ r := by
  intro fuel
  induction fuel with
  | zero => intro p r h; simp [findBarNl] at h
  | succ fuel ih =>
    intro p r h
    rw [findBarNl] at h
    split at h
    · exact Option.noConfusion h
    · split at h
      · injection h with h
        omega
      · exact ih (p - 1) r h

theorem tryTableLine1_lt (doc : Doc) :
    ∀ a b : Nat, tryTableLine1 doc a = some b → a < b := by
  intro a b h
  simp only [tryTableLine1] at h
  split at h
  · split at h
    · exact Option.noConfusion h
    · have := findBarNl_ge doc (a + 2) _ (a + rowRun doc (a + 1)) b h
      omega
  · exact Option.noConfusion h

theorem findBodyBar_ge (doc : Doc) (lb : Nat) :
    ∀ fuel p r : Nat, findBodyBar doc lb fuel p = some r → lb + 1 ≤ r := by
  intro fuel
  induction fuel with
  | zero => intro p r h; simp [findBodyBar] at h
  | succ fuel ih =>
    intro p r h
    rw [findBodyBar] at h
    split at h
    · exact Option.noConfusion h
    · split at h
      · injection h with h
        split at h <;> omega
      · exact ih (p - 1) r h

theorem tryBodyLine_lt (doc : Doc) :
    ∀ p e : Nat, tryBodyLine doc p = some e → p < e := by
  intro p e h
  simp only [tryBodyLine] at h
  split at h
  · split at h
    · exact Option.noConfusion h
    · have := findBodyBar_ge doc (p + 2) _ (p + rowRun doc (p + 1)) e h
      omega
  · exact Option.noConfusion h

theorem bodyLoop_ge (doc : Doc) :
    ∀ fuel p : Nat, p ≤ bodyLoop doc fuel p := by
  intro fuel
  induction fuel with
  | zero => intro p; simp [bodyLoop]
  | succ fuel ih =>
    intro p
    rw [bodyLoop]
    split
    · exact Nat.le_refl _
    next e heq =>
      have h1 := tryBodyLine_lt doc p e heq
      split
      · exact Nat.le_trans (Nat.le_of_lt h1) (ih e)
      · exact Nat.le_of_lt h1

theorem tryTableRest_ge (doc : Doc) (lb : Nat) :
    ∀ fuel p r : Nat, tryTableRest doc lb fuel p = some r → lb ≤ r := by
  intro fuel
  induction fuel with
  | zero => intro p r h; simp [tryTableRest] at h
  | succ fuel ih =>
    intro p r h
    simp only [tryTableRest] at h
    split at h
    · exact Option.noConfusion h
    · split at h
      · split at h
        · rename_i e1 heq
          injection h with h
          have h1 := tryBodyLine_lt doc _ e1 heq
          have h2 := bodyLoop_ge doc (doc.length + 1) e1
          split at h <;> omega
        · exact ih (p - 1) r h
      · exact ih (p - 1) r h

theorem tryTableAt_lt (doc : Doc) :
    ∀ i e : Nat, ∀ u : Unit, tryTableAt doc i = some (e, u) → i < e := by
  intro i e u h
  simp only [tryTableAt] at h
  split at h
  · split at h
    · rename_i b heq1
      have hb := tryTableLine1_lt doc i b heq1
      split at h
      · split at h
        · exact Option.noConfusion h
        · split at h
          · rename_i e1 heq2
            simp only [Option.some.injEq, Prod.mk.injEq] at h
            have := tryTableRest_ge doc (b + 2) _ (b + sepClassRun doc (b + 1)) e1 heq2
            omega
          · exact Option.noConfusion h
      · exact Option.noConfusion h
    · exact Option.noConfusion h
  · exact Option.noConfusion h

theorem scanBlockMath_progress (doc : Doc) : ScanProgress (scanBlockMath doc) := by
  have := scanLoop_progress doc.length (tryBlockAt doc)
    (fun i e a h => tryBlockAt_lt doc i e a h) (doc.length + 1) 0
  exact ⟨fun m hm => (this.1 m hm).2, this.2⟩

theorem scanInline_progress (doc : Doc) : ScanProgress (scanInline doc) := by
  have := scanLoop_progress doc.length (tryInlineAt doc)
    (fun i e a h => tryInlineAt_lt doc i e a h) (doc.length + 1) 0
  exact ⟨fun m hm => (this.1 m hm).2, this.2⟩

theorem scanHighlight_progress (doc : Doc) : ScanProgress (scanHighlight doc) := by
  have := scanLoop_progress doc.length (tryHighlightAt doc)
    (fun i e a h => tryHighlightAt_lt doc i e a h) (doc.length + 1) 0
  exact ⟨fun m hm => (this.1 m hm).2, this.2⟩

theorem scanImage_progress (doc : Doc) : ScanProgress (scanImage doc) := by
  have := scanLoop_progress doc.length (tryImageAt doc)
    (fun i e a h => tryImageAt_lt doc i e a h) (doc.length + 1) 0
  exact ⟨fun m hm => (this.1 m hm).2, this.2⟩

theorem scanTable_progress (doc : Doc) : ScanProgress (scanTable doc) := by
  have := scanLoop_progress doc.length (tryTableAt doc)
    (fun i e a h => tryTableAt_lt doc i e a h) (doc.length + 1) 0
  exact ⟨fun m hm => (this.1 m hm).2, this.2⟩

/-! Soundness of the scan loop: every recorded match is a match of the
anchored matcher. -/

theorem scanLoop_sound {α : Type} (len : Nat) (tryAt : Nat → Option (Nat × α)) :
    ∀ fuel i : Nat, ∀ m ∈ scanLoop len tryAt fuel i, tryAt m.1 = some (m.2.1, m.2.2) := by
  intro fuel
  induction fuel with
  | zero => intro i m hm; simp [scanLoop] at hm
  | succ fuel ih =>
    intro i m hm
    by_cases hlen : i < len
    · rcases htry : tryAt i with _ | ⟨e, a⟩
      · rw [scanLoop, if_pos hlen, htry] at hm
        exact ih (i + 1) m hm
      · rw [scanLoop, if_pos hlen, htry] at hm
        rcases List.mem_cons.mp hm with rfl | hm
        · exact htry
        · exact ih (max e (i + 1)) m hm
    · rw [scanLoop, if_neg hlen] at hm
      simp at hm

/-! Lemmas about the edit-mode reveal guards. -/

theorem revealLine_edit (doc : Doc) (sel : Selection) (f t : Nat) :
    revealLine Mode.edit doc sel f t = cursorOnLine doc sel f t := by
  simp [revealLine]

theorem revealRange_edit (sel : Selection) (f t : Nat) :
    revealRange Mode.edit sel f t = cursorInRange sel f t := by
  simp [revealRange]

/-! Structure of inline math matches. -/

theorem findInlineClose_spec (doc : Doc) :
    ∀ fuel c0 c : Nat, findInlineClose doc fuel c0 = some c →
      c0 ≤ c ∧ c < doc.length ∧ chAt doc c = '$' ∧
      ∀ q, c0 ≤ q → q < c → chAt doc q ≠ '\n' := by
  intro fuel
  induction fuel with
  | zero => intro c0 c h; simp [findInlineClose] at h
  | succ fuel ih =>
    intro c0 c h
    rw [findInlineClose] at h
    split at h
    · rename_i hlen
      split at h
      · exact Option.noConfusion h
      · rename_i hnl
        split at h
        · rename_i hcl
          injection h with h
          subst h
          exact ⟨Nat.le_refl _, hlen, hcl.1, fun q hq1 hq2 => absurd hq1 (by omega)⟩
        · have hr := ih (c0 + 1) c h
          refine ⟨by omega, hr.2.1, hr.2.2.1, ?_⟩
          intro q hq1 hq2
          rcases Nat.eq_or_lt_of_le hq1 with rfl | hq1
          · exact hnl
          · exact hr.2.2.2 q hq1 hq2
    · exact Option.noConfusion h

theorem tryInlineAt_spec (doc : Doc) (i e : Nat) (a : List Char)
    (h : tryInlineAt doc i = some (e, a)) :
    i + 3 ≤ e ∧ chAt doc i = '$' ∧ chAt doc (e - 1) = '$' ∧
    a = slice doc (i + 1) (e - 1) ∧
    ∀ q, i + 1 ≤ q → q + 1 < e → chAt doc q ≠ '\n' := by
  rw [tryInlineAt] at h
  split at h
  · rename_i hguard
    split at h
    · rename_i c heq
      rw [Option.some.injEq, Prod.mk.injEq] at h
      obtain ⟨he, ha⟩ := h
      subst he
      subst ha
      have hs := findInlineClose_spec doc (doc.length + 1) (i + 2) c heq
      refine ⟨by omega, hguard.1, ?_, ?_, ?_⟩
      · simpa using hs.2.2.1
      · simp
      · intro q hq1 hq2
        rcases Nat.eq_or_lt_of_le hq1 with rfl | hq1
        · exact hguard.2.2.2
        · exact hs.2.2.2 q (by omega) (by omega)
    · exact Option.noConfusion h
  · exact Option.noConfusion h

theorem pairwise_key_inj {α : Type} (key : α → Nat) :
    ∀ {l : List α}, List.Pairwise (fun a b => key a < key b) l →
      ∀ {x y : α}, x ∈ l → y ∈ l → key x = key y → x = y := by
  intro l hp
  induction hp with
  | nil => intro x y hx _ _; simp at hx
  | cons hhead _ ih =>
    intro x y hx hy hxy
    rcases List.mem_cons.mp hx with rfl | hx'
    · rcases List.mem_cons.mp hy with rfl | hy'
      · rfl
      · exact absurd hxy (Nat.ne_of_lt (hhead y hy'))
    · rcases List.mem_cons.mp hy with rfl | hy'
      · exact absurd hxy.symm (Nat.ne_of_lt (hhead x hx'))
      · exact ih hx' hy' hxy

theorem inlineMathDecos_mem (doc : Doc) (sel : Selection) (mode : Mode) {d : Deco}
    (hd : d ∈ inlineMathDecos doc sel mode) :
    ∃ m ∈ scanInline doc, containedInBlockMath doc m.1 m.2.1 = false ∧
      revealRange mode sel m.1 m.2.1 = false ∧
      d = Deco.widget m.1 m.2.1 (Widget.math m.2.2 false) := by
  rw [inlineMathDecos, List.mem_filterMap] at hd
  obtain ⟨m, hm, hf⟩ := hd
  refine ⟨m, hm, ?_⟩
  split at hf
  · exact Option.noConfusion hf
  · split at hf
    · exact Option.noConfusion hf
    · rename_i hc hr
      injection hf with hf
      exact ⟨Bool.not_eq_true _ ▸ Bool.of_not_eq_true hc,
        Bool.of_not_eq_true hr, hf.symm⟩

/-! Lemmas about heading marker detection. -/

theorem findIdx_replicate (lvl : Nat) (rest : List Char) :
    (List.replicate lvl '#' ++ ' ' :: rest).findIdx? (fun c => c == ' ') = some lvl := by
  induction lvl with
  | zero => simp [List.findIdx?_cons]
  | succ lvl ih => simp [List.replicate_succ, List.findIdx?_cons, ih]

/-! The interior-line identity of the fenced code loop. -/

theorem range'_filterMap_lt (f : Nat → Deco) (a el : Nat) :
    ∀ (n s : Nat), a < s →
      (List.range' s n).filterMap
        (fun i => if a < i ∧ i < el then some (f i) else none) =
      (List.range' s (min n (el - s))).map f := by
  intro n
  induction n with
  | zero => intro s _; simp
  | succ n ih =>
    intro s hs
    by_cases hel : s < el
    · have hmin : min (n + 1) (el - s) = min n (el - s - 1) + 1 := by omega
      rw [hmin]
      simp only [List.range']
      rw [List.filterMap_cons, if_pos ⟨hs, hel⟩]
      rw [ih (s + 1) (by omega), List.map_cons]
      congr 2
    · have hmin : min (n + 1) (el - s) = 0 := by omega
      rw [hmin]
      simp only [List.range']
      rw [List.filterMap_cons, if_neg (by omega)]
      rw [ih (s + 1) (by omega)]
      have : min n (el - (s + 1)) = 0 := by omega
      rw [this]
      simp

theorem interiorLines_eq (f : Nat → Deco) (sl el : Nat) :
    (List.range' sl (el - sl + 1)).filterMap
      (fun i => if sl < i ∧ i < el then some (f i) else none) =
    (List.range' (sl + 1) (el - sl - 1)).map f := by
  simp only [List.range']
  rw [List.filterMap_cons, if_neg (by omega)]
  rw [range'_filterMap_lt f sl el (el - sl) (sl + 1) (by omega)]
  have h : min (el - sl) (el - (sl + 1)) = el - sl - 1 := by omega
  rw [h]

/-! The emphasis-marker children of a span. -/

theorem iterChildren_marks (doc : Doc) (sel : Selection) (mode : Mode) (f t : Nat) :
    ∀ marks : List (Nat × Nat),
      iterChildren doc sel mode (some (f, t)) (marksForest marks) =
        if revealRange mode sel f t = true then []
        else marks.map (fun mk => Deco.hide mk.1 mk.2) := by
  intro marks
  induction marks with
  | nil => cases h : revealRange mode sel f t <;> simp [marksForest, iterChildren, h]
  | cons mk ms ih =>
    cases h : revealRange mode sel f t <;>
      simp [marksForest, iterChildren, iterTree, enterNode, h, ih]

/-! The claim theorems. -/

/-- C1 counterexample: on document "$$==a==$$" in read mode the block math
scan emits a WidgetReplace over [0,9) while the highlight scan emits a Hide
over [2,4) inside it; both are in the returned set and their ranges
intersect, so the set does contain two intersecting Hide/WidgetReplace
entries and no overlap resolution happened. -/
theorem c1_counterexample :
    Deco.widget 0 9 (Widget.math ("==a==".toList) true) ∈
        buildDecorations ("$$==a==$$".toList) (Tree.node NodeKind.other 0 9 Forest.nil)
          (cursorAt 0) Mode.read ∧
    Deco.hide 2 4 ∈
        buildDecorations ("$$==a==$$".toList) (Tree.node NodeKind.other 0 9 Forest.nil)
          (cursorAt 0) Mode.read ∧
    replaceOverlap (Deco.widget 0 9 (Widget.math ("==a==".toList) true))
      (Deco.hide 2 4) = true := by
  decide

/-- C1 amended: a recompute concatenates the tree pass and the five pattern
scans and sorts the result by start offset: the returned set is always
sorted (a deterministic order) and is a permutation of the concatenated
decorator outputs — nothing is rejected or trimmed, so intersecting
Hide/WidgetReplace entries from independent decorators can both survive into
the returned set. -/
theorem c1_sorted_no_resolution (doc : Doc) (tree : Tree) (sel : Selection)
    (mode : Mode) :
    List.Sorted decoLE (buildDecorations doc tree sel mode) ∧
    List.Perm (buildDecorations doc tree sel mode)
      (iterTree doc sel mode none tree ++ blockMathDecos doc sel mode
        ++ inlineMathDecos doc sel mode ++ highlightDecos doc sel mode
        ++ imageDecos doc sel mode ++ tableDecos doc sel mode) :=
  ⟨sortDecos_sorted _, sortDecos_perm _⟩

/-- C2: in read-only mode the decoration output is a function of the document
and tree alone: for every document, tree and any two selection states, the
recompute yields identical decoration sets — every reveal guard is dead in
read mode, so every construct is decorated regardless of the cursor. -/
theorem c2_read_mode_invariance (doc : Doc) (tree : Tree) (sel sel' : Selection) :
    buildDecorations doc tree sel Mode.read = buildDecorations doc tree sel' Mode.read := by
  unfold buildDecorations
  rw [iterTree_read doc sel sel' none tree, blockMathDecos_read doc sel sel',
    inlineMathDecos_read doc sel sel', highlightDecos_read doc sel sel',
    imageDecos_read doc sel sel', tableDecos_read doc sel sel']

/-- C9: a recompute is total: each of the five pattern scans makes strict
progress (every recorded match is nonempty and successive matches start at
or after the previous match end, so each loop iteration advances), and
buildDecorations returns a fully constructed decoration list, sorted by
start offset, for every input. -/
theorem c9_recompute_total (doc : Doc) (tree : Tree) (sel : Selection) (mode : Mode) :
    ScanProgress (scanBlockMath doc) ∧ ScanProgress (scanInline doc) ∧
    ScanProgress (scanHighlight doc) ∧ ScanProgress (scanImage doc) ∧
    ScanProgress (scanTable doc) ∧
    List.Sorted decoLE (buildDecorations doc tree sel mode) :=
  ⟨scanBlockMath_progress doc, scanInline_progress doc, scanHighlight_progress doc,
   scanImage_progress doc, scanTable_progress doc, sortDecos_sorted _⟩

/-- C10: cursorInRange counts boundary contact as intersection: it holds
exactly when some selection range r satisfies r.from ≤ to and from ≤ r.to,
so in editable mode a cursor sitting exactly at the first offset or at the
one-past-last offset of a construct span reveals that construct. -/
theorem c10_boundary_touch :
    (∀ (sel : Selection) (f t : Nat),
      cursorInRange sel f t = true ↔ ∃ r ∈ sel.ranges, r.lo ≤ t ∧ f ≤ r.hi) ∧
    (∀ f t : Nat, f ≤ t →
      revealRange Mode.edit (cursorAt t) f t = true ∧
      revealRange Mode.edit (cursorAt f) f t = true) := by
  constructor
  · exact cursorInRange_iff
  · intro f t hft
    constructor <;>
      simp [revealRange, cursorInRange, cursorAt, SelRange.lo, SelRange.hi, hft]

/-- C10 witness: the boundary-touch consequence at the concrete span [3,5]
with the cursor at 5 and at 3. -/
theorem c10_witness :
    (3 : Nat) ≤ 5 ∧ revealRange Mode.edit (cursorAt 5) 3 5 = true ∧
      revealRange Mode.edit (cursorAt 3) 3 5 = true :=
  ⟨by decide, (c10_boundary_touch.2 3 5 (by decide)).1,
   (c10_boundary_touch.2 3 5 (by decide)).2⟩

/-- C3 counterexample: document "# Title" plus a second line, selection one
range from 0 to 9 (anchor 0, head 9): the range starts on the heading line
(first conjunct), so it shares a line with the heading span [0,7), yet in
editable mode the heading marker hide [0,2) is still emitted — the construct
is decorated rather than raw, because only the range head (offset 9, line 2)
is consulted. -/
theorem c3_counterexample :
    lineNumber ("# Title\nabc".toList) (SelRange.mk 0 9).lo =
      lineNumber ("# Title\nabc".toList) 0 ∧
    Deco.hide 0 2 ∈ buildDecorations ("# Title\nabc".toList)
      (Tree.node NodeKind.other 0 11 (Forest.cons
        (Tree.node (NodeKind.atxHeading 1) 0 7 Forest.nil) Forest.nil))
      (Selection.mk [SelRange.mk 0 9]) Mode.edit := by
  decide

/-- C3 amended: for the line-based constructs (headings of level 1..6,
fenced code, blockquote), in editable mode the construct is left in raw form
(the visitor keeps recursing without hiding) exactly when some selection
range HEAD lies on a line of the construct span — cursorOnLine inspects only
range heads, so a range merely intersecting those lines with its head
elsewhere does not reveal. -/
theorem c3_reveal_head_only :
    (∀ (doc : Doc) (sel : Selection) (p : Option (Nat × Nat)) (lvl f t : Nat),
      1 ≤ lvl → lvl ≤ 6 →
      ((enterNode doc sel Mode.edit p (NodeKind.atxHeading lvl) f t).2 = true ↔
        ∃ r ∈ sel.ranges, lineNumber doc f ≤ lineNumber doc r.head ∧
          lineNumber doc r.head ≤ lineNumber doc t)) ∧
    (∀ (doc : Doc) (sel : Selection) (p : Option (Nat × Nat)) (f t : Nat),
      ((enterNode doc sel Mode.edit p NodeKind.fencedCode f t).2 = true ↔
        ∃ r ∈ sel.ranges, lineNumber doc f ≤ lineNumber doc r.head ∧
          lineNumber doc r.head ≤ lineNumber doc t)) ∧
    (∀ (doc : Doc) (sel : Selection) (p : Option (Nat × Nat)) (f t : Nat),
      ((enterNode doc sel Mode.edit p NodeKind.blockquote f t).2 = true ↔
        ∃ r ∈ sel.ranges, lineNumber doc f ≤ lineNumber doc r.head ∧
          lineNumber doc r.head ≤ lineNumber doc t)) := by
  refine ⟨?_, ?_, ?_⟩
  · intro doc sel p lvl f t h1 h6
    rw [← cursorOnLine_iff]
    simp only [enterNode]
    rw [if_neg (by omega), revealLine_edit]
    cases h : cursorOnLine doc sel f t
    · cases hfi : (lineText doc f).findIdx? (fun c => c == ' ') <;> simp [hfi]
    · simp
  · intro doc sel p f t
    rw [← cursorOnLine_iff]
    simp only [enterNode]
    rw [revealLine_edit]
    cases h : cursorOnLine doc sel f t <;> simp
  · intro doc sel p f t
    rw [← cursorOnLine_iff]
    simp only [enterNode]
    rw [revealLine_edit]
    cases h : cursorOnLine doc sel f t <;> simp

/-- C3 witness: with the cursor head at offset 2 (on the heading line) the
heading of "# Title" is revealed in editable mode. -/
theorem c3_witness :
    (enterNode ("# Title\nabc".toList) (cursorAt 2) Mode.edit none
      (NodeKind.atxHeading 1) 0 7).2 = true :=
  (c3_reveal_head_only.1 ("# Title\nabc".toList) (cursorAt 2) none 1 0 7
    (by decide) (by decide)).mpr (by decide)

/-- C4 counterexample: indented heading: document " # Title" with an
ATXHeading1 node over [1,8), read mode. The heading is decorated, but the
hide computed from the first space of the line is [0,1) — it covers the
leading space only, and no hide in the output covers the hash marker at
offset 1, refuting the claim that the hide covers the marker plus one
following space. -/
theorem c4_counterexample :
    buildDecorations (" # Title".toList)
      (Tree.node NodeKind.other 0 8 (Forest.cons
        (Tree.node (NodeKind.atxHeading 1) 1 8 Forest.nil) Forest.nil))
      (cursorAt 0) Mode.read
      = [Deco.line 0 (headingClass 1), Deco.hide 0 1] ∧
    (buildDecorations (" # Title".toList)
      (Tree.node NodeKind.other 0 8 (Forest.cons
        (Tree.node (NodeKind.atxHeading 1) 1 8 Forest.nil) Forest.nil))
      (cursorAt 0) Mode.read).all (fun d => !(d.hideCovers 1)) = true := by
  decide

/-- C4 amended: for a heading node of level 1..6 that starts at its line
start and whose line text is the level hash marks followed immediately by a
space, when the heading is not revealed the visitor emits exactly the
heading LineStyle on the line plus a Hide covering the marker and the one
following space; the hide is computed from the first space of the LINE, so
the stated form requires the heading to start the line (see the
counterexample for an indented heading). -/
theorem c4_heading_decorations (doc : Doc) (sel : Selection) (mode : Mode)
    (p : Option (Nat × Nat)) (lvl f t : Nat) (rest : List Char)
    (h1 : 1 ≤ lvl) (h6 : lvl ≤ 6)
    (hls : lineStart doc f = f)
    (htext : lineText doc f = List.replicate lvl '#' ++ ' ' :: rest)
    (hrev : revealLine mode doc sel f t = false) :
    enterNode doc sel mode p (NodeKind.atxHeading lvl) f t =
      ([Deco.line f (headingClass lvl), Deco.hide f (f + lvl + 1)], false) := by
  simp only [enterNode]
  rw [if_neg (by omega), hrev, hls, htext, findIdx_replicate]
  simp

/-- C4 witness: the scenario "# Title" (with a second line so the cursor can
sit elsewhere): editable mode, cursor head at offset 8, heading node [0,7):
one heading-level-1 LineStyle at the line start and a Hide covering the two
characters of the marker and space. -/
theorem c4_witness :
    lineStart ("# Title\nx".toList) 0 = 0 ∧
    lineText ("# Title\nx".toList) 0 = List.replicate 1 '#' ++ ' ' :: "Title".toList ∧
    revealLine Mode.edit ("# Title\nx".toList) (cursorAt 8) 0 7 = false ∧
    enterNode ("# Title\nx".toList) (cursorAt 8) Mode.edit none
      (NodeKind.atxHeading 1) 0 7 =
      ([Deco.line 0 (headingClass 1), Deco.hide 0 2], false) :=
  ⟨by decide, by decide, by decide, by
    have h := c4_heading_decorations ("# Title\nx".toList) (cursorAt 8) Mode.edit none
      1 0 7 ("Title".toList) (by decide) (by decide) (by decide) (by decide) (by decide)
    simpa using h⟩

/-- C5 counterexample: a tilde fence: document with three tilde characters,
a code line, three tilde characters; the FencedCode node spans [0,9). In
read mode the only decoration is the interior code-block LineStyle: the
opening marker line is NOT hidden (no hide at all is emitted), because the
source conditions the opening hide on the line starting with three
backticks, refuting the claim that the opening line is hidden
unconditionally. -/
theorem c5_counterexample :
    buildDecorations ("~~~\nx\n~~~".toList)
      (Tree.node NodeKind.other 0 9 (Forest.cons
        (Tree.node NodeKind.fencedCode 0 9 Forest.nil) Forest.nil))
      (cursorAt 0) Mode.read = [Deco.line 4 clsCodeblock] ∧
    (buildDecorations ("~~~\nx\n~~~".toList)
      (Tree.node NodeKind.other 0 9 (Forest.cons
        (Tree.node NodeKind.fencedCode 0 9 Forest.nil) Forest.nil))
      (cursorAt 0) Mode.read).all (fun d => !d.isHide) = true := by
  decide

/-- C5 amended: for an unrevealed fenced code node, the opening line is
hidden exactly when its trimmed text starts with three backticks, the
closing line likewise, and a code-block LineStyle is emitted exactly on the
lines strictly between the opening and closing lines (and on no other line
of the block). -/
theorem c5_fenced_code (doc : Doc) (sel : Selection) (mode : Mode)
    (p : Option (Nat × Nat)) (f t : Nat)
    (hrev : revealLine mode doc sel f t = false) :
    enterNode doc sel mode p NodeKind.fencedCode f t =
      ((if (jsTrim (lineText doc f)).take 3 = [tick, tick, tick] then
          [Deco.hide (lineStart doc f) (lineStop doc f)] else [])
        ++ (if (jsTrim (lineText doc t)).take 3 = [tick, tick, tick] then
          [Deco.hide (lineStart doc t) (lineStop doc t)] else [])
        ++ (List.range' (lineNumber doc f + 1)
              (lineNumber doc t - lineNumber doc f - 1)).map
            (fun i => Deco.line (nthLineStart doc i) clsCodeblock), false) := by
  simp only [enterNode]
  rw [hrev, interiorLines_eq]
  simp

/-- C5 witness: a three-backtick fence with one interior line, read mode:
both marker lines hidden and one interior code-block LineStyle. -/
theorem c5_witness :
    revealLine Mode.read ("```A\nx\n```".toList) (cursorAt 0) 0 10 = false ∧
    enterNode ("```A\nx\n```".toList) (cursorAt 0) Mode.read none
      NodeKind.fencedCode 0 10 =
      ([Deco.hide 0 4, Deco.hide 7 10, Deco.line 5 clsCodeblock], false) :=
  ⟨by decide, by
    rw [c5_fenced_code ("```A\nx\n```".toList) (cursorAt 0) Mode.read none 0 10 (by decide)]
    decide⟩

/-- C6: for a strong or emphasis span with its marker-token children, the
visitor emits the bold or italic mark on the owning span in every case, and
hides each marker exactly when the guard (editable mode and some selection
range intersecting the owning span) is off — when it is on, no marker of
that span is hidden. The second part is the concrete scenario: document
"Hello **bold** text", cursor at offset 0, editable mode: the two marker
hides covering the four asterisks and the bold mark on the span are all in
the output set. -/
theorem c6_emphasis_markers :
    (∀ (doc : Doc) (sel : Selection) (mode : Mode) (p : Option (Nat × Nat))
        (f t : Nat) (marks : List (Nat × Nat)),
      iterTree doc sel mode p (Tree.node NodeKind.strongEmphasis f t (marksForest marks)) =
        Deco.mark f t clsBold ::
          (if revealRange mode sel f t = true then []
           else marks.map (fun mk => Deco.hide mk.1 mk.2)) ∧
      iterTree doc sel mode p (Tree.node NodeKind.emphasis f t (marksForest marks)) =
        Deco.mark f t clsItalic ::
          (if revealRange mode sel f t = true then []
           else marks.map (fun mk => Deco.hide mk.1 mk.2))) ∧
    (Deco.hide 6 8 ∈ buildDecorations scenarioEmphDoc scenarioEmphTree (cursorAt 0) Mode.edit ∧
     Deco.hide 12 14 ∈ buildDecorations scenarioEmphDoc scenarioEmphTree (cursorAt 0) Mode.edit ∧
     Deco.mark 6 14 clsBold ∈ buildDecorations scenarioEmphDoc scenarioEmphTree (cursorAt 0) Mode.edit) := by
  constructor
  · intro doc sel mode p f t marks
    constructor
    · simp [iterTree, enterNode, iterChildren_marks]
    · simp [iterTree, enterNode, iterChildren_marks]
  · exact ⟨by decide, by decide, by decide⟩

/-- C7: every inline math candidate match is a nonempty dollar-delimited
single-line span whose payload is the text between the delimiters; when the
candidate is fully contained in some block math match the inline scan
produces no decoration for it, and otherwise, unless revealed, it produces
exactly one non-display math widget spanning the match. -/
theorem c7_inline_math (doc : Doc) (sel : Selection) (mode : Mode)
    (m : Nat × Nat × List Char) (hm : m ∈ scanInline doc) :
    (m.1 + 3 ≤ m.2.1 ∧ chAt doc m.1 = '$' ∧ chAt doc (m.2.1 - 1) = '$' ∧
      m.2.2 = slice doc (m.1 + 1) (m.2.1 - 1) ∧
      ∀ q, m.1 + 1 ≤ q → q + 1 < m.2.1 → chAt doc q ≠ '\n') ∧
    (containedInBlockMath doc m.1 m.2.1 = true →
      ∀ d ∈ inlineMathDecos doc sel mode, d.startPos ≠ m.1) ∧
    (containedInBlockMath doc m.1 m.2.1 = false →
      revealRange mode sel m.1 m.2.1 = false →
      Deco.widget m.1 m.2.1 (Widget.math m.2.2 false) ∈ inlineMathDecos doc sel mode ∧
      ∀ d ∈ inlineMathDecos doc sel mode, d.startPos = m.1 →
        d = Deco.widget m.1 m.2.1 (Widget.math m.2.2 false)) := by
  have hsound := scanLoop_sound doc.length (tryInlineAt doc) (doc.length + 1) 0 m hm
  have hspec := tryInlineAt_spec doc m.1 m.2.1 m.2.2 hsound
  have hpw := progress_pairwise (scanInline_progress doc)
  refine ⟨hspec, ?_, ?_⟩
  · intro hc d hd heq
    obtain ⟨m', hm', hc', _, hd'⟩ := inlineMathDecos_mem doc sel mode hd
    have hfr : m'.1 = m.1 := by
      rw [hd'] at heq
      simpa [Deco.startPos] using heq
    have hmm : m' = m := pairwise_key_inj (fun x => x.1) hpw hm' hm hfr
    rw [hmm] at hc'
    rw [hc'] at hc
    exact Bool.noConfusion hc
  · intro hc hr
    constructor
    · rw [inlineMathDecos, List.mem_filterMap]
      exact ⟨m, hm, by simp [hc, hr]⟩
    · intro d hd heq
      obtain ⟨m', hm', _, _, hd'⟩ := inlineMathDecos_mem doc sel mode hd
      have hfr : m'.1 = m.1 := by
        rw [hd'] at heq
        simpa [Deco.startPos] using heq
      have hmm : m' = m := pairwise_key_inj (fun x => x.1) hpw hm' hm hfr
      rw [hd', hmm]

/-- C7 witness: document with a lone inline formula: its match (0,3) with
payload the single letter is a scan result, is not contained in any block
math match, is not revealed with the cursor past the end in editable mode,
and yields the inline math widget. -/
theorem c7_witness :
    ((0, 3, "a".toList) : Nat × Nat × List Char) ∈ scanInline ("$a$".toList) ∧
    Deco.widget 0 3 (Widget.math ("a".toList) false) ∈
      inlineMathDecos ("$a$".toList) (cursorAt 4) Mode.edit :=
  ⟨by decide,
   ((c7_inline_math ("$a$".toList) (cursorAt 4) Mode.edit (0, 3, "a".toList)
      (by decide)).2.2 (by decide) (by decide)).1⟩

/-- C8 (code bug evidence): the standard three-line table: the header line,
the separator line and one body line. The widget partition puts the body row
after the separator into the HEADER partition (a th row in thead) and leaves
the body empty, because headerParsed is only set after a row has been
appended with separatorFound already true; the spec places that row in the
body. -/
theorem c8_table_header_bug :
    tableWidgetDom ("|h|\n|-|\n|b|".toList) =
      TableRender.table [["h".toList], ["b".toList]] [] := by
  decide

end LP
